import Mathlib

/-!
Verification of the text-to-sticker rendering core of `src/index.js`.

The embedding translates the JavaScript source into Lean:

* `findOptimalFontSize` (src/index.js lines 408-487) becomes the pure
  functions `packWords` / `solveLoop` / `findOptimalFontSize` below.
  The canvas `ctx.measureText` calls are abstracted as a measurement
  function `measure : Nat → String → ℚ` taking the current font size
  (the code sets `ctx.font` to the candidate size before measuring)
  and the measured string.  JavaScript numbers are modelled as exact
  rationals `ℚ`.
* `drawTextWithEmoji` (lines 339-386) becomes a fold over an explicit
  list of segments (`twemoji.parse` + the `<img>` split produce
  alternating plain-text parts and emoji `<img>` parts; the fetch-and-
  decode of one emoji either succeeds or throws, which we record as a
  `Bool` on the segment).  The canvas side effects are reified as a
  list of `DrawOp`s and the stateful `cursorX` is threaded explicitly.
* `processSVG` (lines 326-335) becomes `processSVG`, with
  `String.prototype.includes` as `includesB` and the single-occurrence
  `String.prototype.replace` as `replaceFirst`.
* The word tokenisation `text.trim().split(/\s+/)` of `createSticker`
  (line 404) becomes `stickerWords`; JavaScript `split` on a regex
  returns `[""]` for the empty string, which `jsSplitWsAux` reproduces.
  The whitespace class is restricted to the ASCII whitespace characters
  actually exercised by the theorems below.
* The `/mkstr` command handler (lines 190-200) becomes
  `mkstrStickerText`, returning `some t` exactly when the handler calls
  `createSticker` with text `t`.
-/

/-- Canvas width fixed by `createSticker` (line 391). -/
def canvasWidth : ℚ := 512

/-- Canvas height fixed by `createSticker` (line 392). -/
def canvasHeight : ℚ := 512

/-- Source: `const margin = canvasWidth * 0.05` (line 410). -/
def margin : ℚ := canvasWidth * (5 / 100)

/-- Source: `const maxWidth = canvasWidth - (margin * 2)` (line 411). -/
def maxWidth : ℚ := canvasWidth - margin * 2

/-- Source: `const maxHeight = canvasHeight - (margin * 2)` (line 412). -/
def maxHeight : ℚ := canvasHeight - margin * 2

/-- Source: `const lineHeight = fontSize * 1.2` (line 451). -/
def lineHeightAt (fontSize : Nat) : ℚ := (fontSize : ℚ) * (12 / 10)

/-- The result record `{ fontSize, lines, lineHeight }` returned by
`findOptimalFontSize` (lines 456 and 486). -/
structure LayoutSolution where
  fontSize : Nat
  lines : List (List String)
  lineHeight : ℚ
deriving DecidableEq

/-- The greedy word-packing loop of `findOptimalFontSize`
(lines 425-448, and the fallback copy at lines 470-484).  State:
`lines` are the closed lines, `cur` the current line, `curW` the
accumulated `currentLineWidth`.  With `check = true` this is the sized
loop, which bails out (`canFitAllWords = false`, modelled as `none`)
when a single word is wider than `maxW`; with `check = false` it is the
fallback loop, which has no such bail-out.  `sp` is the measured space
width, `w` measures one word. -/
def packWords (check : Bool) (maxW sp : ℚ) (w : String → ℚ) :
    List String → List (List String) → List String → ℚ →
    Option (List (List String))
  | [], lines, cur, _ =>
      some (if cur = [] then lines else lines ++ [cur])
  | word :: rest, lines, cur, curW =>
      if check = true ∧ maxW < w word then none
      else if curW + w word ≤ maxW ∨ cur = [] then
        packWords check maxW sp w rest lines (cur ++ [word]) (curW + w word + sp)
      else
        packWords check maxW sp w rest (lines ++ [cur]) [word] (w word + sp)

/-- Run the packing loop from the initial state (`lines = []`,
`currentLine = []`, `currentLineWidth = 0`, lines 417-419). -/
def packAll (check : Bool) (maxW sp : ℚ) (w : String → ℚ)
    (ws : List String) : Option (List (List String)) :=
  packWords check maxW sp w ws [] [] 0

/-- The sized packing attempt at font size `f`: the font is set to
`f`px before measuring (line 415), so the space width and the word
widths are measured at `f`. -/
def packAt (measure : Nat → String → ℚ) (ws : List String) (f : Nat) :
    Option (List (List String)) :=
  packAll true maxWidth (measure f " ") (measure f) ws

/-- Font size `f` is accepted by the search (line 455): all words pack
and the total height `lines.length * lineHeight` fits in `maxHeight`. -/
def accepts (measure : Nat → String → ℚ) (ws : List String) (f : Nat) : Prop :=
  ∃ L, packAt measure ws f = some L ∧
    (L.length : ℚ) * lineHeightAt f ≤ maxHeight

/-- One iteration body of the `while` loop (lines 415-457): pack all
words at font size `fontSize`; on success and if the total height fits
(`canFitAllWords && totalHeight <= maxHeight`, line 455), return the
solution record of line 456, otherwise signal rejection. -/
def attemptAt (measure : Nat → String → ℚ) (ws : List String)
    (fontSize : Nat) : Option LayoutSolution :=
  (packAt measure ws fontSize).bind fun lines =>
    if (lines.length : ℚ) * lineHeightAt fontSize ≤ maxHeight then
      some ⟨fontSize, lines, lineHeightAt fontSize⟩
    else none

/-- The `while (fontSize > 10)` search loop (lines 414-461), starting
at the given candidate size and decrementing by 2 (`fontSize -= 2`,
line 460).  Returns `none` when the loop exhausts all sizes. -/
def solveLoop (measure : Nat → String → ℚ) (ws : List String)
    (fontSize : Nat) : Option LayoutSolution :=
  if h : 10 < fontSize then
    match attemptAt measure ws fontSize with
    | some sol => some sol
    | none => solveLoop measure ws (fontSize - 2)
  else none
termination_by fontSize
decreasing_by omega

/-- Model of `findOptimalFontSize` (lines 408-487): run the search from the
start size 120 (line 409); on exhaustion, the fallback (lines 463-486)
re-packs at font size 10 with no oversized-word bail-out and returns
`{ fontSize: 10, lines, lineHeight: 12 }`. -/
def findOptimalFontSize (measure : Nat → String → ℚ) (ws : List String) :
    LayoutSolution :=
  match solveLoop measure ws 120 with
  | some sol => sol
  | none =>
      { fontSize := 10
        lines := (packAll false maxWidth (measure 10 " ") (measure 10) ws).getD []
        lineHeight := 12 }

/-- Accumulated width of a (current) line as maintained by
`currentLineWidth`: every pushed word contributes its measured width
plus one space width (`currentLineWidth += wordWidth + spaceWidth`,
lines 437 and 441). -/
def accW (sp : ℚ) (w : String → ℚ) (l : List String) : ℚ :=
  (l.map fun x => w x + sp).sum

/-- Declarative greedy-fit property of one finished line: every word
that was appended to a non-empty line satisfied the width test
`currentLineWidth + wordWidth <= maxWidth` at the moment it was added
(line 435). -/
def LineFits (maxW sp : ℚ) (w : String → ℚ) (l : List String) : Prop :=
  ∀ p x q, l = p ++ x :: q → p ≠ [] → accW sp w p + w x ≤ maxW

/-- Declarative break property between two consecutive lines: the line
was closed because the first word of the next line failed the width
test against the accumulated width of the previous line (the `else`
branch, lines 438-442). -/
def BreakForced (maxW sp : ℚ) (w : String → ℚ) (l₁ l₂ : List String) : Prop :=
  ∀ x ∈ l₂.head?, maxW < accW sp w l₁ + w x

/-- Model of `Math.round(fontSize * 0.9)` (line 354): JavaScript `Math.round`
on a non-negative value is `⌊x + 1/2⌋`. -/
def emojiSize (fontSize : Nat) : Nat := (9 * fontSize + 5) / 10

/-- One part of the `twemoji.parse` + `<img>`-split decomposition of a
line (line 341): a plain-text run, or an emoji `<img>` part whose glyph
fetch-and-decode either succeeds or throws (`fetchOk`). -/
inductive Segment where
  | textRun (s : String)
  | glyphRun (fetchOk : Bool)
deriving DecidableEq

/-- A reified canvas side effect of `drawTextWithEmoji`. -/
inductive DrawOp where
  /-- Call `ctx.fillText(part, cursorX, y)` of a plain-text run at the given
  font size (lines 377-380). -/
  | text (s : String) (x y : ℚ) (fontSize : Nat)
  /-- Call `ctx.drawImage(img, cursorX, emojiY, emojiSize, emojiSize)` of a
  successfully fetched emoji glyph (line 366). -/
  | image (x y : ℚ) (wpx hpx : Nat)
  /-- the fallback `ctx.fillText` of the box character at the text
  baseline in the plain-text font (lines 371-372). -/
  | placeholder (x y : ℚ) (fontSize : Nat)
deriving DecidableEq

/-- The renderer state: the running `cursorX` plus the trace of draw
calls made so far. -/
structure RenderState where
  cursorX : ℚ
  ops : List DrawOp
deriving DecidableEq

/-- Cursor advance of one segment: a text run advances by its measured
width (line 381), a fetched glyph by `emojiSize * 0.8` (line 367), a
failed fetch by `fontSize * 0.8` (line 373). -/
def segAdvance (measure : Nat → String → ℚ) (fontSize : Nat) :
    Segment → ℚ
  | .textRun s => measure fontSize s
  | .glyphRun true => (emojiSize fontSize : ℚ) * (8 / 10)
  | .glyphRun false => (fontSize : ℚ) * (8 / 10)

/-- Process one segment of the loop body of `drawTextWithEmoji`
(lines 344-383): emit the draw call and advance the cursor. -/
def renderSeg (measure : Nat → String → ℚ) (fontSize : Nat) (y : ℚ)
    (st : RenderState) : Segment → RenderState
  | .textRun s =>
      ⟨st.cursorX + measure fontSize s,
       st.ops ++ [.text s st.cursorX y fontSize]⟩
  | .glyphRun true =>
      ⟨st.cursorX + (emojiSize fontSize : ℚ) * (8 / 10),
       st.ops ++ [.image st.cursorX (y - (fontSize : ℚ) * (7 / 10))
                    (emojiSize fontSize) (emojiSize fontSize)]⟩
  | .glyphRun false =>
      ⟨st.cursorX + (fontSize : ℚ) * (8 / 10),
       st.ops ++ [.placeholder st.cursorX y fontSize]⟩

/-- The draw call emitted for one segment when the cursor is at `x`
(used to state what `renderSeg` appends to the trace). -/
def opAt (fontSize : Nat) (y x : ℚ) : Segment → DrawOp
  | .textRun s => .text s x y fontSize
  | .glyphRun true =>
      .image x (y - (fontSize : ℚ) * (7 / 10)) (emojiSize fontSize)
        (emojiSize fontSize)
  | .glyphRun false => .placeholder x y fontSize

/-- Model of `drawTextWithEmoji(ctx, text, x, y, fontSize)` (lines 339-386):
fold the segment loop from cursor `x`; the function returns the final
`cursorX` (line 385), and we additionally collect the draw calls. -/
def drawTextWithEmoji (measure : Nat → String → ℚ) (fontSize : Nat)
    (segs : List Segment) (x y : ℚ) : RenderState :=
  segs.foldl (renderSeg measure fontSize y) ⟨x, []⟩

/-- Total cursor advance of a list of segments. -/
def advSum (measure : Nat → String → ℚ) (fontSize : Nat)
    (segs : List Segment) : ℚ :=
  (segs.map (segAdvance measure fontSize)).sum

/-- ASCII whitespace (the subset of the JavaScript `\s` class used by
the theorems below). -/
def isWs (c : Char) : Bool := c = ' ' || c = '\t' || c = '\n' || c = '\r'

/-- Model of `String.prototype.trim` restricted to ASCII whitespace. -/
def jsTrim (s : String) : String :=
  ⟨((s.data.dropWhile isWs).reverse.dropWhile isWs).reverse⟩

/-- Model of `str.split(/\s+/)` on the character list: split at each maximal
whitespace run (`skip` records being inside a run, so further
whitespace extends the current separator instead of emitting another
field).  Like JavaScript, the empty string yields `[""]` (one empty
field), and leading/trailing whitespace yields empty fields. -/
def jsSplitWsAux (skip : Bool) : List Char → List Char → List (List Char)
  | [], acc => [acc.reverse]
  | c :: rest, acc =>
      if isWs c then
        if skip then jsSplitWsAux true rest acc
        else acc.reverse :: jsSplitWsAux true rest []
      else jsSplitWsAux false rest (c :: acc)

/-- Model of `str.split(/\s+/)` on strings. -/
def jsSplitWs (s : String) : List String :=
  (jsSplitWsAux false s.data []).map fun l => ⟨l⟩

/-- Source: `const words = text.trim().split(/\s+/)` (line 404). -/
def stickerWords (text : String) : List String := jsSplitWs (jsTrim text)

/-- Whether `createSticker` proceeds past the guard
`if (words.length === 0) return;` (line 405) into layout, rendering and
encoding. -/
def createSticker_proceeds (text : String) : Bool :=
  (stickerWords text).length != 0

/-- Check whether the pattern occurs at the head of the list. -/
def headOcc (pat l : List Char) : Bool := l.take pat.length == pat

/-- Model of `String.prototype.includes` on character lists: some occurrence of
`pat` as a contiguous substring. -/
def subOcc (pat : List Char) : List Char → Bool
  | [] => pat.isEmpty
  | c :: rest => headOcc pat (c :: rest) || subOcc pat rest

/-- Model of `s.includes(pat)`. -/
def includesB (s pat : String) : Bool := subOcc pat.data s.data

/-- Model of `String.prototype.replace` with a plain-string pattern: replace the
first occurrence only (character-list worker). -/
def replaceFirstAux (pat repl : List Char) : List Char → List Char
  | [] => []
  | c :: rest =>
      if headOcc pat (c :: rest) then repl ++ (c :: rest).drop pat.length
      else c :: replaceFirstAux pat repl rest

/-- Model of `s.replace(pat, repl)` with a plain-string pattern. -/
def replaceFirst (s pat repl : String) : String :=
  ⟨replaceFirstAux pat.data repl.data s.data⟩

/-- Model of `processSVG(svgString, size)` (lines 326-335): when the markup
contains neither a `width=` nor a `height=` substring, splice
`width="size" height="size"` into the first `<svg` occurrence. -/
def processSVG (svgString : String) (size : Nat) : String :=
  if !includesB svgString "width=" && !includesB svgString "height=" then
    replaceFirst svgString "<svg"
      ("<svg width=\"" ++ toString size ++ "\" height=\"" ++ toString size ++ "\"")
  else svgString

/-- The `/mkstr` handler (lines 190-200): `some t` exactly when
`createSticker(sock, from, t)` is called.  `isReply` is the truthiness
of the quoted-message context, `quotedMsg` the extracted quoted text
(`none` when the quoted message has no text, in which case the JS
`quotedMsg || "Teks kosong"` default fires, as it also does for an
empty quoted string). -/
def mkstrStickerText (text : String) (isReply : Bool)
    (quotedMsg : Option String) : Option String :=
  let s0 := jsTrim (replaceFirst text "/mkstr" "")
  let s1 :=
    if s0 = "" ∧ isReply = true then
      match quotedMsg with
      | some q => if q = "" then "Teks kosong" else q
      | none => "Teks kosong"
    else s0
  if s1 = "" then none else some s1

/-- Word preservation of the packing loop: the concatenation of the
produced lines is the already-closed lines, then the current line,
then the remaining words. -/
theorem packWords_flatten (check : Bool) (maxW sp : ℚ) (w : String → ℚ) :
    ∀ (ws : List String) (lines : List (List String)) (cur : List String)
      (curW : ℚ) (L : List (List String)),
      packWords check maxW sp w ws lines cur curW = some L →
      L.flatten = lines.flatten ++ (cur ++ ws) := by
  intro ws
  induction ws with
  | nil =>
      intro lines cur curW L h
      simp only [packWords] at h
      split at h
      · injection h with h'
        subst h'
        simp_all
      · injection h with h'
        subst h'
        simp [List.flatten_append]
  | cons word rest ih =>
      intro lines cur curW L h
      simp only [packWords] at h
      split at h
      · exact absurd h (by simp)
      · split at h
        · simpa [List.append_assoc] using ih _ _ _ _ h
        · simpa [List.flatten_append, List.append_assoc] using ih _ _ _ _ h

/-- The sized packing loop fails exactly when some word alone is wider
than the usable width (the `wordWidth > maxWidth` bail-out at
line 429). -/
theorem packWords_true_none_iff (maxW sp : ℚ) (w : String → ℚ) :
    ∀ (ws : List String) (lines : List (List String)) (cur : List String)
      (curW : ℚ),
      packWords true maxW sp w ws lines cur curW = none ↔
        ∃ x ∈ ws, maxW < w x := by
  intro ws
  induction ws with
  | nil => intro lines cur curW; simp [packWords]
  | cons word rest ih =>
      intro lines cur curW
      simp only [packWords]
      by_cases hw : maxW < w word
      · simp [hw]
      · rw [if_neg (by simp [hw])]
        split <;> · rw [ih]; simp [hw]

/-- The fallback packing loop (no oversized-word bail-out) always
produces a line list. -/
theorem packWords_false_some (maxW sp : ℚ) (w : String → ℚ) :
    ∀ (ws : List String) (lines : List (List String)) (cur : List String)
      (curW : ℚ),
      ∃ L, packWords false maxW sp w ws lines cur curW = some L := by
  intro ws
  induction ws with
  | nil => intro lines cur curW; exact ⟨_, rfl⟩
  | cons word rest ih =>
      intro lines cur curW
      simp only [packWords]
      rw [if_neg (by simp)]
      split <;> apply ih

/-- Sized packing at font size `f` fails exactly when some word is
wider than `maxWidth` at that size. -/
theorem packAt_eq_none_iff (measure : Nat → String → ℚ) (ws : List String)
    (f : Nat) :
    packAt measure ws f = none ↔ ∃ x ∈ ws, maxWidth < measure f x :=
  packWords_true_none_iff maxWidth (measure f " ") (measure f) ws [] [] 0

/-- Unpacking a successful per-size attempt. -/
theorem attemptAt_eq_some (measure : Nat → String → ℚ) (ws : List String)
    (f : Nat) (sol : LayoutSolution)
    (h : attemptAt measure ws f = some sol) :
    sol.fontSize = f ∧ packAt measure ws f = some sol.lines ∧
    sol.lineHeight = lineHeightAt f ∧
    ((sol.lines.length : ℚ) * lineHeightAt f ≤ maxHeight) := by
  unfold attemptAt at h
  cases hp : packAt measure ws f with
  | none => rw [hp] at h; exact absurd h (by simp)
  | some lines =>
      rw [hp, Option.some_bind] at h
      split at h
      · injection h with h'
        subst h'
        exact ⟨rfl, rfl, rfl, by assumption⟩
      · exact absurd h (by simp)

/-- A rejected per-size attempt means the size is not accepted. -/
theorem attemptAt_eq_none (measure : Nat → String → ℚ) (ws : List String)
    (f : Nat) (h : attemptAt measure ws f = none) :
    ¬ accepts measure ws f := by
  rintro ⟨L, hL, hh⟩
  unfold attemptAt at h
  simp [hL, hh] at h

/-- Full characterisation of the search loop: a returned solution was
accepted at its own (candidate) size and every larger candidate size
reachable from `n` was rejected; a `none` result means every candidate
size reachable from `n` was rejected. -/
theorem solveLoop_spec (measure : Nat → String → ℚ) (ws : List String) :
    ∀ n : Nat,
      (∀ sol, solveLoop measure ws n = some sol →
        10 < sol.fontSize ∧ sol.fontSize ≤ n ∧
        (n - sol.fontSize) % 2 = 0 ∧
        packAt measure ws sol.fontSize = some sol.lines ∧
        sol.lineHeight = lineHeightAt sol.fontSize ∧
        (sol.lines.length : ℚ) * lineHeightAt sol.fontSize ≤ maxHeight ∧
        ∀ g, sol.fontSize < g → g ≤ n → (n - g) % 2 = 0 →
          ¬ accepts measure ws g) ∧
      (solveLoop measure ws n = none →
        ∀ g, 10 < g → g ≤ n → (n - g) % 2 = 0 → ¬ accepts measure ws g) := by
  intro n
  induction n using Nat.strong_induction_on with
  | _ n ih =>
    by_cases hn : 10 < n
    · have hunf : solveLoop measure ws n =
          (match attemptAt measure ws n with
           | some sol => some sol
           | none => solveLoop measure ws (n - 2)) := by
        rw [solveLoop, dif_pos hn]
      cases ha : attemptAt measure ws n with
      | some sol₀ =>
          simp only [ha] at hunf
          obtain ⟨hfs, hpack, hlh, hht⟩ := attemptAt_eq_some measure ws n sol₀ ha
          constructor
          · intro sol hsol
            rw [hunf] at hsol
            injection hsol with h'
            subst h'
            refine ⟨hfs ▸ hn, le_of_eq hfs, by omega, ?_, ?_, ?_, ?_⟩
            · rw [hfs]; exact hpack
            · rw [hfs]; exact hlh
            · rw [hfs]; exact hht
            · intro g hg1 hg2 _
              omega
          · intro hnone
            rw [hunf] at hnone
            exact absurd hnone (by simp)
      | none =>
          simp only [ha] at hunf
          have hrej : ¬ accepts measure ws n := attemptAt_eq_none measure ws n ha
          have ih2 := ih (n - 2) (by omega)
          constructor
          · intro sol hsol
            rw [hunf] at hsol
            obtain ⟨h1, h2, h3, h4, h5, h6, h7⟩ := ih2.1 sol hsol
            refine ⟨h1, by omega, by omega, h4, h5, h6, ?_⟩
            intro g hg1 hg2 hg3
            by_cases hcase : g ≤ n - 2
            · exact h7 g hg1 hcase (by omega)
            · have : g = n := by omega
              subst this
              exact hrej
          · intro hnone
            rw [hunf] at hnone
            intro g hg1 hg2 hg3
            by_cases hcase : g ≤ n - 2
            · exact ih2.2 hnone g hg1 hcase (by omega)
            · have : g = n := by omega
              subst this
              exact hrej
    · have hunf : solveLoop measure ws n = none := by
        rw [solveLoop, dif_neg hn]
      constructor
      · intro sol hsol
        rw [hunf] at hsol
        exact absurd hsol (by simp)
      · intro _ g hg1 hg2 _
        exact absurd (hg1.trans_le hg2) hn

/-- C1: for every non-empty word list, the layout solver tries
candidate font sizes in strictly descending order starting at 120 and
decreasing by 2 (the candidates are exactly the even sizes
`10 < f ≤ 120`), and returns the first — hence largest — candidate at
which all words pack into lines and the total block height
(`lines.length * (fontSize * 1.2)`) is at most the usable canvas
height; once a size is accepted no further (smaller) size is
considered: if any candidate `g` is accepted, the returned font size is
itself an accepted candidate, at least `g`, and the returned lines and
line height are the ones computed at that size. -/
theorem solver_first_accepted_size (measure : Nat → String → ℚ)
    (ws : List String) (hws : ws ≠ []) (g : Nat) (hg1 : 10 < g)
    (hg2 : g ≤ 120) (hg3 : g % 2 = 0) (hacc : accepts measure ws g) :
    10 < (findOptimalFontSize measure ws).fontSize ∧
    (findOptimalFontSize measure ws).fontSize % 2 = 0 ∧
    (findOptimalFontSize measure ws).fontSize ≤ 120 ∧
    accepts measure ws (findOptimalFontSize measure ws).fontSize ∧
    g ≤ (findOptimalFontSize measure ws).fontSize ∧
    packAt measure ws (findOptimalFontSize measure ws).fontSize
      = some (findOptimalFontSize measure ws).lines ∧
    (findOptimalFontSize measure ws).lineHeight
      = lineHeightAt (findOptimalFontSize measure ws).fontSize := by
  have hspec := solveLoop_spec measure ws 120
  cases hs : solveLoop measure ws 120 with
  | none => exact absurd hacc (hspec.2 hs g hg1 hg2 (by omega))
  | some sol =>
      have heq : findOptimalFontSize measure ws = sol := by
        unfold findOptimalFontSize
        rw [hs]
      obtain ⟨h1, h2, h3, h4, h5, h6, h7⟩ := hspec.1 sol hs
      have hg : g ≤ sol.fontSize := by
        by_contra hlt
        exact (h7 g (by omega) hg2 (by omega)) hacc
      rw [heq]
      exact ⟨h1, by omega, h2, ⟨sol.lines, h4, h6⟩, hg, h4, h5⟩

/-- A measurement function where a word's width is its length times
the font size (used to exercise the solver theorems on concrete
inputs). -/
def measureProp (f : Nat) (s : String) : ℚ := (f : ℚ) * (s.length : ℚ)

/-- C1 witness: on the two words `ab cd` under `measureProp`, size 120
is accepted, so the solver returns an accepted size that is at least
(hence exactly) 120. -/
theorem solver_first_accepted_size_witness :
    accepts measureProp ["ab", "cd"]
      (findOptimalFontSize measureProp ["ab", "cd"]).fontSize ∧
    120 ≤ (findOptimalFontSize measureProp ["ab", "cd"]).fontSize := by
  have h := solver_first_accepted_size measureProp ["ab", "cd"] (by simp)
    120 (by omega) (le_refl 120) rfl
    ⟨[["ab"], ["cd"]],
      by norm_num [packAt, packAll, packWords, measureProp, maxWidth, margin,
        canvasWidth, show "ab".length = 2 from rfl, show "cd".length = 2 from rfl,
        show " ".length = 1 from rfl],
      by norm_num [lineHeightAt, maxHeight, margin, canvasWidth, canvasHeight]⟩
  exact ⟨h.2.2.2.1, h.2.2.2.2.1⟩

/-- C3: for every input containing a word wider than the usable width
at every candidate font size, the solver never rejects: it returns the
minimum-font-size (10) fallback solution built by the same greedy
packing with the oversized-word rejection no longer applied, with no
height check — overflow is accepted. -/
theorem solver_min_size_fallback (measure : Nat → String → ℚ)
    (ws : List String) (x : String) (hx : x ∈ ws)
    (hover : ∀ f, 10 < f → f ≤ 120 → maxWidth < measure f x) :
    findOptimalFontSize measure ws =
      { fontSize := 10
        lines := (packAll false maxWidth (measure 10 " ") (measure 10) ws).getD []
        lineHeight := 12 } := by
  have hspec := solveLoop_spec measure ws 120
  cases hs : solveLoop measure ws 120 with
  | some sol =>
      obtain ⟨h1, h2, _, h4, _, _, _⟩ := hspec.1 sol hs
      have hnone : packAt measure ws sol.fontSize = none :=
        (packAt_eq_none_iff measure ws sol.fontSize).mpr
          ⟨x, hx, hover sol.fontSize h1 h2⟩
      rw [h4] at hnone
      exact absurd hnone (by simp)
  | none =>
      unfold findOptimalFontSize
      rw [hs]

/-- A measurement function making every string 1000px wide at every
font size (wider than the usable width 460.8 at all sizes). -/
def measureBig (f : Nat) (s : String) : ℚ := 1000

/-- C3 witness: a single always-oversized word triggers the fallback
solution at font size 10 with the word on one line. -/
theorem solver_min_size_fallback_witness :
    findOptimalFontSize measureBig ["x"] =
      { fontSize := 10, lines := [["x"]], lineHeight := 12 } := by
  rw [solver_min_size_fallback measureBig ["x"] "x" (by simp)
    (fun f _ _ => by norm_num [measureBig, maxWidth, margin, canvasWidth])]
  norm_num [packAll, packWords, measureBig, maxWidth, margin, canvasWidth]

/-- C4: for every input word sequence, concatenating the word
sequences of all lines of the returned layout, in order, reproduces
the original word sequence exactly — on the accepted-size path and on
the minimum-size fallback path alike. -/
theorem solver_preserves_words (measure : Nat → String → ℚ)
    (ws : List String) :
    (findOptimalFontSize measure ws).lines.flatten = ws := by
  cases hs : solveLoop measure ws 120 with
  | some sol =>
      have heq : findOptimalFontSize measure ws = sol := by
        unfold findOptimalFontSize
        rw [hs]
      rw [heq]
      obtain ⟨_, _, _, h4, _, _, _⟩ := (solveLoop_spec measure ws 120).1 sol hs
      have hfl := packWords_flatten true maxWidth (measure sol.fontSize " ")
        (measure sol.fontSize) ws [] [] 0 sol.lines
        (by simpa [packAt, packAll] using h4)
      simpa using hfl
  | none =>
      have heq : findOptimalFontSize measure ws =
          { fontSize := 10
            lines := (packAll false maxWidth (measure 10 " ") (measure 10) ws).getD []
            lineHeight := 12 } := by
        unfold findOptimalFontSize
        rw [hs]
      rw [heq]
      obtain ⟨L, hL⟩ :=
        packWords_false_some maxWidth (measure 10 " ") (measure 10) ws [] [] 0
      have hfl := packWords_flatten false maxWidth (measure 10 " ")
        (measure 10) ws [] [] 0 L hL
      simp only [packAll]
      rw [hL]
      simpa using hfl

/-- C5: every returned layout satisfies the invariant that
`lines.count * lineHeight` is at most the usable canvas height, or the
returned font size is the minimum 10 (fallback path, where the height
constraint may be violated). -/
theorem solver_height_invariant (measure : Nat → String → ℚ)
    (ws : List String) :
    ((findOptimalFontSize measure ws).lines.length : ℚ) *
        (findOptimalFontSize measure ws).lineHeight ≤ maxHeight ∨
    (findOptimalFontSize measure ws).fontSize = 10 := by
  cases hs : solveLoop measure ws 120 with
  | some sol =>
      have heq : findOptimalFontSize measure ws = sol := by
        unfold findOptimalFontSize
        rw [hs]
      obtain ⟨_, _, _, _, h5, h6, _⟩ := (solveLoop_spec measure ws 120).1 sol hs
      left
      rw [heq, h5]
      exact h6
  | none =>
      right
      unfold findOptimalFontSize
      rw [hs]

/-- C9: for every word list and measurement function, the font-size
search terminates with a solution whose font size lies between 10 and
120 inclusive (the loop decreases the candidate by 2 from 120 until
the guard `fontSize > 10` fails, then the fallback runs one bounded
pass at size 10). -/
theorem solver_fontSize_bounds (measure : Nat → String → ℚ)
    (ws : List String) :
    10 ≤ (findOptimalFontSize measure ws).fontSize ∧
    (findOptimalFontSize measure ws).fontSize ≤ 120 := by
  cases hs : solveLoop measure ws 120 with
  | some sol =>
      have heq : findOptimalFontSize measure ws = sol := by
        unfold findOptimalFontSize
        rw [hs]
      obtain ⟨h1, h2, _, _, _, _, _⟩ := (solveLoop_spec measure ws 120).1 sol hs
      rw [heq]
      exact ⟨by omega, h2⟩
  | none =>
      have heq : (findOptimalFontSize measure ws).fontSize = 10 := by
        unfold findOptimalFontSize
        rw [hs]
      rw [heq]
      exact ⟨le_refl 10, by omega⟩

/-- The accumulated width of the empty current line is 0. -/
theorem accW_nil (sp : ℚ) (w : String → ℚ) : accW sp w [] = 0 := by
  simp [accW]

/-- Pushing a word onto the current line adds its width plus one space
width to the accumulated width. -/
theorem accW_append_singleton (sp : ℚ) (w : String → ℚ) (l : List String)
    (x : String) : accW sp w (l ++ [x]) = accW sp w l + (w x + sp) := by
  simp [accW]

/-- The empty line vacuously satisfies the greedy-fit property. -/
theorem lineFits_nil (maxW sp : ℚ) (w : String → ℚ) :
    LineFits maxW sp w [] := by
  intro p x q h _
  exact absurd h.symm (by simp)

/-- A one-word line vacuously satisfies the greedy-fit property (a
word starting a line is never width-tested). -/
theorem lineFits_singleton (maxW sp : ℚ) (w : String → ℚ) (a : String) :
    LineFits maxW sp w [a] := by
  intro p x q h hp
  cases p with
  | nil => exact absurd rfl hp
  | cons b p' => simp at h

/-- Extending a greedily-fit line by one word that passes the width
test against the whole accumulated width keeps the property. -/
theorem lineFits_append_singleton (maxW sp : ℚ) (w : String → ℚ)
    (l : List String) (x : String) (hl : LineFits maxW sp w l)
    (hx : l ≠ [] → accW sp w l + w x ≤ maxW) :
    LineFits maxW sp w (l ++ [x]) := by
  intro p y q hpq hp
  rcases List.eq_nil_or_concat q with rfl | ⟨q', z, rfl⟩
  · obtain ⟨rfl, hy⟩ := List.append_inj' hpq.symm (by simp)
    injection hy with hy'
    subst hy'
    exact hx hp
  · rw [List.concat_eq_append,
      show p ++ y :: (q' ++ [z]) = (p ++ y :: q') ++ [z] by simp] at hpq
    obtain ⟨hl', _⟩ := List.append_inj' hpq (by simp)
    exact hl p y q' hl' hp

/-- Replacing the final (current) line of a break-forced chain by a
line with the same head keeps the chain. -/
theorem chain_replace_last (R : List String → List String → Prop)
    (lines : List (List String)) (cur cur' : List String)
    (h : List.Chain' R (lines ++ [cur]))
    (himp : ∀ a, R a cur → R a cur') :
    List.Chain' R (lines ++ [cur']) := by
  rw [List.chain'_append] at h ⊢
  refine ⟨h.1, List.chain'_singleton _, ?_⟩
  intro a ha b hb
  simp only [List.head?_cons, Option.mem_def, Option.some.injEq] at hb
  subst hb
  exact himp a (h.2.2 a ha cur (by simp))

/-- Closing the current line and opening a new one extends the chain
when the break relation holds between them. -/
theorem chain_snoc (R : List String → List String → Prop)
    (l : List (List String)) (cur newl : List String)
    (h : List.Chain' R (l ++ [cur])) (hr : R cur newl) :
    List.Chain' R ((l ++ [cur]) ++ [newl]) := by
  rw [List.chain'_append]
  refine ⟨h, List.chain'_singleton _, ?_⟩
  intro a ha b hb
  rw [List.getLast?_concat] at ha
  simp only [Option.mem_def, Option.some.injEq] at ha hb
  simp only [List.head?_cons, Option.some.injEq] at hb
  subst ha
  subst hb
  exact hr

/-- Invariant of the sized greedy packing loop: starting from a state
whose accumulated width matches the current line, whose closed lines
are non-empty and greedily fit, and whose break chain holds, every
produced line list consists of non-empty greedily-fit lines whose
consecutive breaks were all forced. -/
theorem packWords_greedy (maxW sp : ℚ) (w : String → ℚ) :
    ∀ (ws : List String) (lines : List (List String)) (cur : List String)
      (curW : ℚ) (L : List (List String)),
      packWords true maxW sp w ws lines cur curW = some L →
      curW = accW sp w cur →
      (∀ l ∈ lines, l ≠ [] ∧ LineFits maxW sp w l) →
      LineFits maxW sp w cur →
      List.Chain' (BreakForced maxW sp w) (lines ++ [cur]) →
      (cur = [] → lines = []) →
      (∀ l ∈ L, l ≠ [] ∧ LineFits maxW sp w l) ∧
        List.Chain' (BreakForced maxW sp w) L := by
  intro ws
  induction ws with
  | nil =>
      intro lines cur curW L h hW hlines hcur hchain hemp
      simp only [packWords] at h
      split at h
      · rename_i hc
        injection h with h'
        subst h'
        rw [hemp hc]
        exact ⟨by simp, by simp⟩
      · rename_i hc
        injection h with h'
        subst h'
        constructor
        · intro l hl
          rcases List.mem_append.mp hl with hl' | hl'
          · exact hlines l hl'
          · rw [List.mem_singleton.mp hl']
            exact ⟨hc, hcur⟩
        · exact hchain
  | cons word rest ih =>
      intro lines cur curW L h hW hlines hcur hchain hemp
      simp only [packWords] at h
      split at h
      · exact absurd h (by simp)
      · split at h
        · rename_i hcond
          refine ih lines (cur ++ [word]) _ L h ?_ hlines ?_ ?_ ?_
          · rw [accW_append_singleton, hW]
            ring
          · refine lineFits_append_singleton maxW sp w cur word hcur ?_
            intro hne
            rcases hcond with hle | hnil
            · rw [← hW]; exact hle
            · exact absurd hnil hne
          · by_cases hcnil : cur = []
            · rw [hemp hcnil, hcnil]
              simp
            · refine chain_replace_last _ lines cur (cur ++ [word]) hchain ?_
              intro a ha
              obtain ⟨c, cur', rfl⟩ := List.exists_cons_of_ne_nil hcnil
              intro b hb
              simp only [List.cons_append, List.head?_cons, Option.mem_def,
                Option.some.injEq] at hb
              subst hb
              exact ha c rfl
          · intro habs
            exact absurd habs (by simp)
        · rename_i hcond
          push_neg at hcond
          obtain ⟨hgt, hne⟩ := hcond
          refine ih (lines ++ [cur]) [word] _ L h ?_ ?_ ?_ ?_ ?_
          · simp [accW]
          · intro l hl
            rcases List.mem_append.mp hl with hl' | hl'
            · exact hlines l hl'
            · rw [List.mem_singleton.mp hl']
              exact ⟨hne, hcur⟩
          · exact lineFits_singleton maxW sp w word
          · refine chain_snoc _ lines cur [word] hchain ?_
            intro b hb
            simp only [List.head?_cons, Option.mem_def, Option.some.injEq] at hb
            subst hb
            rw [← hW]
            exact hgt
          · intro habs
            exact absurd habs (by simp)

/-- C2: at each candidate font size, words are packed greedily — the
sized packing fails exactly when a single word alone is wider than the
usable width (no mid-word splitting: that size is rejected outright);
and on success every produced line is non-empty, every word appended
to a non-empty line passed the width test
`accumulated + wordWidth ≤ maxWidth`, and every line break was forced:
the first word of each following line failed that test against the
accumulated width of the line before it. -/
theorem greedy_packing_rule (measure : Nat → String → ℚ)
    (ws : List String) (f : Nat) :
    (packAt measure ws f = none ↔ ∃ x ∈ ws, maxWidth < measure f x) ∧
    ∀ L, packAt measure ws f = some L →
      (∀ l ∈ L, l ≠ [] ∧
        LineFits maxWidth (measure f " ") (measure f) l) ∧
      List.Chain' (BreakForced maxWidth (measure f " ") (measure f)) L := by
  constructor
  · exact packAt_eq_none_iff measure ws f
  · intro L hL
    refine packWords_greedy maxWidth (measure f " ") (measure f) ws [] [] 0 L
      (by simpa [packAt, packAll] using hL) (by simp [accW]) (by simp)
      (lineFits_nil _ _ _) (by simp) (fun _ => rfl)

/-- C2 witness: at font size 120 under `measureProp`, the words
`abc de` pack into two lines (the second word forced a break), and the
packing satisfies the greedy characterisation. -/
theorem greedy_packing_rule_witness :
    (∀ l ∈ [["abc"], ["de"]], l ≠ [] ∧
      LineFits maxWidth (measureProp 120 " ") (measureProp 120) l) ∧
    List.Chain'
      (BreakForced maxWidth (measureProp 120 " ") (measureProp 120))
      [["abc"], ["de"]] :=
  (greedy_packing_rule measureProp ["abc", "de"] 120).2 [["abc"], ["de"]]
    (by norm_num [packAt, packAll, packWords, measureProp, maxWidth, margin,
      canvasWidth, show "abc".length = 3 from rfl,
      show "de".length = 2 from rfl, show " ".length = 1 from rfl])

/-- One renderer step advances the cursor by the segment's advance and
appends exactly one draw call, made at the old cursor position. -/
theorem renderSeg_eq (measure : Nat → String → ℚ) (fontSize : Nat)
    (y : ℚ) (st : RenderState) (seg : Segment) :
    renderSeg measure fontSize y st seg =
      ⟨st.cursorX + segAdvance measure fontSize seg,
       st.ops ++ [opAt fontSize y st.cursorX seg]⟩ := by
  cases seg with
  | textRun s => rfl
  | glyphRun b => cases b <;> rfl

/-- Every segment advance is non-negative when the measurement
function is non-negative. -/
theorem segAdvance_nonneg (measure : Nat → String → ℚ) (fontSize : Nat)
    (seg : Segment) (hm : ∀ s, 0 ≤ measure fontSize s) :
    0 ≤ segAdvance measure fontSize seg := by
  cases seg with
  | textRun s => exact hm s
  | glyphRun b => cases b <;> · simp only [segAdvance]; positivity

/-- The total advance of a segment list is non-negative when the
measurement function is non-negative. -/
theorem advSum_nonneg (measure : Nat → String → ℚ) (fontSize : Nat)
    (segs : List Segment) (hm : ∀ s, 0 ≤ measure fontSize s) :
    0 ≤ advSum measure fontSize segs := by
  induction segs with
  | nil => simp [advSum]
  | cons seg rest ih =>
      have h1 := segAdvance_nonneg measure fontSize seg hm
      simp only [advSum, List.map_cons, List.sum_cons]
      simp only [advSum] at ih
      linarith

/-- The cursor after folding the renderer over a segment list is the
starting cursor plus the total advance. -/
theorem foldl_renderSeg_cursorX (measure : Nat → String → ℚ)
    (fontSize : Nat) (y : ℚ) :
    ∀ (segs : List Segment) (st : RenderState),
      (List.foldl (renderSeg measure fontSize y) st segs).cursorX =
        st.cursorX + advSum measure fontSize segs := by
  intro segs
  induction segs with
  | nil => intro st; simp [advSum]
  | cons seg rest ih =>
      intro st
      rw [List.foldl_cons, ih, renderSeg_eq]
      simp only [advSum, List.map_cons, List.sum_cons]
      ring

/-- The draw calls after folding the renderer are the starting trace
followed by the calls the fold makes on its own. -/
theorem foldl_renderSeg_ops (measure : Nat → String → ℚ)
    (fontSize : Nat) (y : ℚ) :
    ∀ (segs : List Segment) (st : RenderState),
      (List.foldl (renderSeg measure fontSize y) st segs).ops =
        st.ops ++
          (List.foldl (renderSeg measure fontSize y)
            ⟨st.cursorX, []⟩ segs).ops := by
  intro segs
  induction segs with
  | nil => intro st; simp
  | cons seg rest ih =>
      intro st
      rw [List.foldl_cons, List.foldl_cons, ih (renderSeg measure fontSize y st seg),
        ih (renderSeg measure fontSize y ⟨st.cursorX, []⟩ seg),
        renderSeg_eq, renderSeg_eq]
      simp [List.append_assoc]

/-- C6: for every line, if the glyph fetch or decode of any single
emoji run fails, the renderer draws one placeholder box character at
the text baseline in the plain-text font at the current cursor,
advances the cursor by `0.8 * fontSize`, and goes on to render every
remaining segment of the line; the failure is absorbed locally and
the returned cursor still advances past the starting `x`. -/
theorem renderer_glyph_failure_recovery (measure : Nat → String → ℚ)
    (fontSize : Nat) (pre post : List Segment) (x y : ℚ)
    (hf : 0 < fontSize) (hm : ∀ s, 0 ≤ measure fontSize s) :
    (drawTextWithEmoji measure fontSize
        (pre ++ Segment.glyphRun false :: post) x y).ops
      = (drawTextWithEmoji measure fontSize pre x y).ops
        ++ DrawOp.placeholder (x + advSum measure fontSize pre) y fontSize
        :: (drawTextWithEmoji measure fontSize post
              (x + advSum measure fontSize pre + (fontSize : ℚ) * (8 / 10))
              y).ops
    ∧ (drawTextWithEmoji measure fontSize
        (pre ++ Segment.glyphRun false :: post) x y).cursorX
      = x + advSum measure fontSize pre + (fontSize : ℚ) * (8 / 10)
        + advSum measure fontSize post
    ∧ x < (drawTextWithEmoji measure fontSize
        (pre ++ Segment.glyphRun false :: post) x y).cursorX := by
  have hpre : 0 ≤ advSum measure fontSize pre :=
    advSum_nonneg measure fontSize pre hm
  have hpost : 0 ≤ advSum measure fontSize post :=
    advSum_nonneg measure fontSize post hm
  have hfq : (0 : ℚ) < (fontSize : ℚ) * (8 / 10) := by
    have : (1 : ℚ) ≤ (fontSize : ℚ) := by exact_mod_cast hf
    nlinarith
  have hops :
      (drawTextWithEmoji measure fontSize
        (pre ++ Segment.glyphRun false :: post) x y).ops
      = (drawTextWithEmoji measure fontSize pre x y).ops
        ++ DrawOp.placeholder (x + advSum measure fontSize pre) y fontSize
        :: (drawTextWithEmoji measure fontSize post
              (x + advSum measure fontSize pre + (fontSize : ℚ) * (8 / 10))
              y).ops := by
    unfold drawTextWithEmoji
    rw [show pre ++ Segment.glyphRun false :: post
        = (pre ++ [Segment.glyphRun false]) ++ post by simp,
      List.foldl_append, List.foldl_append]
    rw [foldl_renderSeg_ops measure fontSize y post]
    simp only [List.foldl_cons, List.foldl_nil]
    rw [renderSeg_eq]
    rw [foldl_renderSeg_cursorX]
    simp [opAt, segAdvance, List.append_assoc]
  have hcur :
      (drawTextWithEmoji measure fontSize
        (pre ++ Segment.glyphRun false :: post) x y).cursorX
      = x + advSum measure fontSize pre + (fontSize : ℚ) * (8 / 10)
        + advSum measure fontSize post := by
    unfold drawTextWithEmoji
    rw [foldl_renderSeg_cursorX]
    simp only [advSum, List.map_append, List.map_cons, List.sum_append,
      List.sum_cons, segAdvance]
    ring
  refine ⟨hops, hcur, ?_⟩
  rw [hcur]
  linarith

/-- A measurement function assigning each string its length in
characters (used to exercise the renderer theorems on concrete
inputs). -/
def measureLen (f : Nat) (s : String) : ℚ := (s.length : ℚ)

/-- C6 witness: with a failing emoji fetch between two text runs, the
returned cursor still advances past the start. -/
theorem renderer_glyph_failure_recovery_witness :
    (0 : ℚ) < (drawTextWithEmoji measureLen 20
      ([Segment.textRun "hi"] ++ Segment.glyphRun false
        :: [Segment.textRun "!"]) 0 100).cursorX :=
  (renderer_glyph_failure_recovery measureLen 20 [Segment.textRun "hi"]
    [Segment.textRun "!"] 0 100 (by omega)
    (fun s => by simp [measureLen])).2.2

/-- C10: the cursor of the line renderer is monotone: every single
segment step advances it by a non-negative amount, and the final
cursor returned for a whole segment list is at least the starting
`x` — for every non-negative measurement function. -/
theorem renderer_cursor_monotone (measure : Nat → String → ℚ)
    (fontSize : Nat) (segs : List Segment) (x y : ℚ)
    (hm : ∀ s, 0 ≤ measure fontSize s) :
    (∀ (st : RenderState) (seg : Segment),
      st.cursorX ≤ (renderSeg measure fontSize y st seg).cursorX) ∧
    x ≤ (drawTextWithEmoji measure fontSize segs x y).cursorX := by
  constructor
  · intro st seg
    rw [renderSeg_eq]
    have h := segAdvance_nonneg measure fontSize seg hm
    simp only
    linarith
  · unfold drawTextWithEmoji
    rw [foldl_renderSeg_cursorX]
    have h := advSum_nonneg measure fontSize segs hm
    simp only
    linarith

/-- C10 witness: a successful emoji glyph followed by a text run never
moves the cursor left of the start. -/
theorem renderer_cursor_monotone_witness :
    (5 : ℚ) ≤ (drawTextWithEmoji measureLen 12
      [Segment.glyphRun true, Segment.textRun "a"] 5 50).cursorX :=
  (renderer_cursor_monotone measureLen 12
    [Segment.glyphRun true, Segment.textRun "a"] 5 50
    (fun s => by simp [measureLen])).2

/-- Predicate `headOcc` holds exactly when the pattern is an initial segment. -/
theorem headOcc_iff (pat l : List Char) :
    headOcc pat l = true ↔ ∃ q, l = pat ++ q := by
  unfold headOcc
  rw [beq_iff_eq]
  constructor
  · intro h
    have h2 := List.take_append_drop pat.length l
    rw [h] at h2
    exact ⟨l.drop pat.length, h2.symm⟩
  · rintro ⟨q, rfl⟩
    exact List.take_left pat q

/-- Predicate `subOcc` holds exactly when the pattern occurs as a contiguous
substring. -/
theorem subOcc_iff (pat : List Char) :
    ∀ l : List Char, subOcc pat l = true ↔ ∃ p q, l = p ++ pat ++ q := by
  intro l
  induction l with
  | nil =>
      simp only [subOcc, List.isEmpty_iff]
      constructor
      · intro h
        subst h
        exact ⟨[], [], rfl⟩
      · rintro ⟨p, q, hpq⟩
        have h3 := hpq.symm
        simp only [List.append_eq_nil] at h3
        exact h3.1.2
  | cons c rest ih =>
      simp only [subOcc, Bool.or_eq_true]
      rw [headOcc_iff, ih]
      constructor
      · rintro (⟨q, hq⟩ | ⟨p, q, hpq⟩)
        · exact ⟨[], q, by simp [hq]⟩
        · exact ⟨c :: p, q, by simp [hpq]⟩
      · rintro ⟨p, q, hpq⟩
        cases p with
        | nil => exact Or.inl ⟨q, by simpa using hpq⟩
        | cons c' p' =>
            simp only [List.cons_append, List.cons.injEq] at hpq
            exact Or.inr ⟨p', q, hpq.2⟩

/-- A substring of the middle part occurs in the whole list. -/
theorem subOcc_infix (pat mid p q : List Char)
    (h : subOcc pat mid = true) :
    subOcc pat (p ++ mid ++ q) = true := by
  rw [subOcc_iff] at h ⊢
  obtain ⟨a, b, hab⟩ := h
  exact ⟨p ++ a, b ++ q, by simp [hab]⟩

/-- A substring of the left part occurs in the concatenation. -/
theorem subOcc_append_left (pat a b : List Char)
    (h : subOcc pat a = true) : subOcc pat (a ++ b) = true := by
  simpa using subOcc_infix pat a [] b h

/-- A substring of the right part occurs in the concatenation. -/
theorem subOcc_append_right (pat a b : List Char)
    (h : subOcc pat b = true) : subOcc pat (a ++ b) = true := by
  simpa using subOcc_infix pat b a [] h

/-- When the pattern occurs, single-occurrence replacement produces
the replacement somewhere in the output. -/
theorem replaceFirstAux_found (pat repl : List Char) (hpat : pat ≠ []) :
    ∀ l : List Char, subOcc pat l = true →
      ∃ p q, replaceFirstAux pat repl l = p ++ repl ++ q := by
  intro l
  induction l with
  | nil =>
      intro h
      simp only [subOcc, List.isEmpty_iff] at h
      exact absurd h hpat
  | cons c rest ih =>
      intro h
      simp only [replaceFirstAux]
      by_cases hh : headOcc pat (c :: rest) = true
      · rw [if_pos hh]
        exact ⟨[], (c :: rest).drop pat.length, by simp⟩
      · rw [if_neg hh]
        have h2 : subOcc pat rest = true := by
          simp only [subOcc, Bool.or_eq_true] at h
          rcases h with h | h
          · exact absurd h hh
          · exact h
        obtain ⟨p, q, hp⟩ := ih h2
        exact ⟨c :: p, q, by simp [hp]⟩

/-- Appending strings concatenates their character data. -/
theorem string_data_append (a b : String) :
    (a ++ b).data = a.data ++ b.data := rfl

/-- C8 counterexample: markup that already contains `width=` but no
`height=` is returned unchanged by `processSVG`, so the preprocessed
output still lacks an explicit height attribute — the claim that
preprocessing always guarantees both attributes is false. -/
theorem processSVG_width_only_keeps_missing_height :
    processSVG "<svg width=\"5\"></svg>" 64 = "<svg width=\"5\"></svg>" ∧
    includesB (processSVG "<svg width=\"5\"></svg>" 64) "height=" = false := by
  constructor <;> rfl

/-- C8 amended: `processSVG` injects the size attributes only when the
markup contains neither a `width=` nor a `height=` substring; in that
case, provided an `<svg` tag is present, the output contains both
explicit attributes; when either substring is already present the
markup is returned unchanged (so markup with only one of the two
attributes keeps lacking the other). -/
theorem processSVG_injects_iff_both_absent (svg : String) (size : Nat) :
    (includesB svg "width=" = false → includesB svg "height=" = false →
      includesB svg "<svg" = true →
      includesB (processSVG svg size) "width=" = true ∧
      includesB (processSVG svg size) "height=" = true) ∧
    ((includesB svg "width=" = true ∨ includesB svg "height=" = true) →
      processSVG svg size = svg) := by
  constructor
  · intro hw hh hsvg
    unfold processSVG
    rw [hw, hh]
    simp only [Bool.not_false, Bool.and_self, if_true]
    obtain ⟨p, q, hrepl⟩ := replaceFirstAux_found "<svg".data
      ("<svg width=\"" ++ toString size ++ "\" height=\"" ++ toString size
        ++ "\"").data (by decide) svg.data hsvg
    constructor
    · show subOcc "width=".data (replaceFirstAux "<svg".data _ svg.data) = true
      rw [hrepl]
      apply subOcc_infix
      simp only [string_data_append, List.append_assoc]
      apply subOcc_append_left
      decide
    · show subOcc "height=".data (replaceFirstAux "<svg".data _ svg.data) = true
      rw [hrepl]
      apply subOcc_infix
      simp only [string_data_append, List.append_assoc]
      apply subOcc_append_right
      apply subOcc_append_right
      apply subOcc_append_left
      decide
  · intro hcase
    unfold processSVG
    rcases hcase with hw | hh
    · rw [hw]
      simp
    · rw [hh]
      simp

/-- C8 amended witness: markup with neither attribute and an `<svg`
tag gets both attributes injected. -/
theorem processSVG_injects_iff_both_absent_witness :
    includesB (processSVG "<svg viewBox=\"0 0 36 36\"></svg>" 64)
      "width=" = true ∧
    includesB (processSVG "<svg viewBox=\"0 0 36 36\"></svg>" 64)
      "height=" = true :=
  (processSVG_injects_iff_both_absent "<svg viewBox=\"0 0 36 36\"></svg>"
    64).1 rfl rfl rfl

/-- C7 (code evidence): whitespace-only sticker text is not rejected.
Replying `/mkstr` to a message whose text is a single space makes the
handler call `createSticker` with text `" "`; inside `createSticker`,
`" ".trim().split(/\s+/)` is `[""]` — one (empty) word, not zero — so
the `words.length === 0` guard never fires and rendering proceeds,
generating a sticker for whitespace-only input. -/
theorem whitespace_reply_renders_sticker :
    mkstrStickerText "/mkstr" true (some " ") = some " " ∧
    stickerWords " " = [""] ∧
    createSticker_proceeds " " = true := by
  refine ⟨?_, ?_, ?_⟩ <;> rfl
